import Mathlib

/-!
Verification of the Wake serial-protocol codec (`wake-rs`, `src/lib.rs`).

The Rust library is shallowly embedded: `u8` values become `Nat` (with
explicit `% 256` where the source casts), `Vec<u8>` becomes `List Nat`,
and `Result<T, WakeError>` becomes `Except WakeError T`.  The `usize`
subtraction in `decode` is modelled with wrapping (release-mode)
semantics via `Int.emod _ (2 ^ 64)`.
-/

set_option maxRecDepth 100000

namespace Wake

/-- Frame start marker `FEND = 0xC0` (`src/lib.rs` line 12). -/
def FEND : Nat := 0xC0

/-- Frame escape marker `FESC = 0xDB` (`src/lib.rs` line 13). -/
def FESC : Nat := 0xDB

/-- Escaped substitute for `FEND` (`src/lib.rs` line 14). -/
def TFEND : Nat := 0xDC

/-- Escaped substitute for `FESC` (`src/lib.rs` line 15). -/
def TFESC : Nat := 0xDD

/-- High bit marking an address byte (`src/lib.rs` line 17). -/
def ADDR_MASK : Nat := 0x80

/-- CRC-8 initial value (`src/lib.rs` line 18). -/
def CRC_INIT : Nat := 0xDE

/-- Minimum packet length (`src/lib.rs` line 19). -/
def PACKET_MIN_LEN : Nat := 4

/-- Maximum supported data length (`src/lib.rs` line 22). -/
def DATA_MAX_LEN : Nat := 0xff

/-- Error type of the codec (`src/lib.rs` lines 26-34). -/
inductive WakeError where
  | TooShortPacket
  | CannotFindStart
  | DestuffingFailed
  | WrongPacketLength
  | WrongPacketCrc
  | WrongAddrRange
  | WrongCmdRange
deriving DecidableEq, Repr

/-- Wake packet: optional 7-bit address, 7-bit command, optional data
(`src/lib.rs` lines 58-65).  Bytes are modelled as `Nat`. -/
structure Packet where
  address : Option Nat := none
  command : Nat := 0
  data : Option (List Nat) := none
deriving DecidableEq, Repr

/-- One bit-step of the CRC-8 update (`src/lib.rs` lines 119-123).
`!0x80` on `u8` is `0x7F`. -/
def crcBit (c b : Nat) : Nat :=
  if (b ^^^ c) &&& 1 = 1 then ((c ^^^ 0x18) >>> 1) ||| 0x80
  else (c >>> 1) &&& 0x7F

/-- Eight bit-steps over one byte, shifting the byte right after each step
(`src/lib.rs` lines 116-126). -/
def crcByteAux : Nat → Nat → Nat → Nat
  | 0, c, _ => c
  | n + 1, c, b => crcByteAux n (crcBit c b) (b >>> 1)

/-- CRC-8 update for one input byte (`crc8` closure, `src/lib.rs` line 116). -/
def crc8 (c b : Nat) : Nat := crcByteAux 8 c b

/-- CRC-8 of a byte sequence, starting from `CRC_INIT`
(`src/lib.rs` lines 113-132). -/
def crc (l : List Nat) : Nat := l.foldl crc8 CRC_INIT

/-- Stuffing of every byte after the first (`src/lib.rs` lines 148-160):
`FESC ↦ FESC TFESC`, `FEND ↦ FESC TFEND`, anything else is copied. -/
def stuffTail : List Nat → List Nat
  | [] => []
  | x :: rest =>
    if x = FESC then FESC :: TFESC :: stuffTail rest
    else if x = FEND then FESC :: TFEND :: stuffTail rest
    else x :: stuffTail rest

/-- Byte stuffing (`src/lib.rs` lines 144-162): the first byte is copied
unconditionally, the rest is escaped.  The Rust function asserts
`3 ≤ length` and `head = FEND` (panicking otherwise); theorems about
`stuff` carry those preconditions as hypotheses. -/
def stuff : List Nat → List Nat
  | [] => []
  | x :: rest => x :: stuffTail rest

/-- Byte destuffing (`dry`, `src/lib.rs` lines 175-196).  A trailing
lone `FESC` yields `WrongPacketLength`; `FESC` followed by anything other
than `TFESC`/`TFEND` yields `DestuffingFailed`; every other byte
(including `FEND`) is copied.  The Rust loop guard `i > len - 2` uses
wrapping `usize` arithmetic, so on the single whole input `[FESC]` the
Rust code instead panics with an out-of-bounds read; every theorem below
stays away from that one input. -/
def dry : List Nat → Except WakeError (List Nat)
  | [] => .ok []
  | x :: rest =>
    if x = FESC then
      match rest with
      | [] => .error .WrongPacketLength
      | y :: rest2 =>
        if y = TFESC then (dry rest2).map (fun t => FESC :: t)
        else if y = TFEND then (dry rest2).map (fun t => FEND :: t)
        else .error .DestuffingFailed
    else (dry rest).map (fun t => x :: t)

/-- Wire bytes contributed by the optional address: `addr | ADDR_MASK`
when present (`src/lib.rs` line 309), nothing otherwise. -/
def addrBytes : Option Nat → List Nat
  | some a => [a ||| ADDR_MASK]
  | none => []

/-- The pre-stuffing frame built by `encode` (`src/lib.rs` lines 301-325):
`FEND`, optional marked address, command, length byte (`d.len() as u8`,
hence `% 256`), data, CRC over everything so far. -/
def encodeFrame (p : Packet) : List Nat :=
  let pre := FEND :: (addrBytes p.address ++ p.command ::
    (match p.data with
     | some d => (d.length % 256) :: d
     | none => [0]))
  pre ++ [crc pre]

/-- Packet encoding (`src/lib.rs` lines 300-328): range-check the address
(if present) then the command, build the frame, stuff it. -/
def encode (p : Packet) : Except WakeError (List Nat) :=
  match p.address with
  | some a =>
    if 0x7F < a then .error .WrongAddrRange
    else if 0x7F < p.command then .error .WrongCmdRange
    else .ok (stuff (encodeFrame p))
  | none =>
    if 0x7F < p.command then .error .WrongCmdRange
    else .ok (stuff (encodeFrame p))

/-- Steps 5-10 of `decode` (`src/lib.rs` lines 254-271), after the
destuffed buffer `ds`, the decoded address, the command and the index `i`
of the length byte are known.  The length comparison
`destuffed_pkt.len() - i - 2` is `usize` arithmetic, modelled with
wrapping semantics as `Int.emod _ (2 ^ 64)`. -/
def decodeBody (ds : List Nat) (addr : Option Nat) (cmd : Nat) (i : Nat) :
    Except WakeError Packet :=
  match ds[i]? with
  | none => .error .TooShortPacket
  | some dataLen =>
    if (((ds.length : Int) - (i : Int) - 2).emod (2 ^ 64)) ≠ (dataLen : Int) then
      .error .WrongPacketLength
    else
      let data : Option (List Nat) :=
        if dataLen = 0 then none
        else some ((ds.drop (i + 1)).take (ds.length - 1 - (i + 1)))
      let receivedCrc := (ds.getLast?).getD 0
      let body := ds.take (ds.length - 1)
      if receivedCrc ≠ crc body then .error .WrongPacketCrc
      else .ok { address := addr, command := cmd, data := data }

/-- Packet decoding (`src/lib.rs` lines 226-272): length floor, start
marker, destuffing, address/command disambiguation via the high bit, then
`decodeBody`. -/
def decode (l : List Nat) : Except WakeError Packet :=
  if l.length < PACKET_MIN_LEN then .error .TooShortPacket
  else if l.headD 0 ≠ FEND then .error .CannotFindStart
  else
    match dry l with
    | .error e => .error e
    | .ok ds =>
      match ds[1]? with
      | none => .error .TooShortPacket
      | some d =>
        if ADDR_MASK ≤ d then
          match ds[2]? with
          | none => .error .TooShortPacket
          | some cmd => decodeBody ds (some (d &&& 0x7F)) cmd 3
        else decodeBody ds none d 2

/-- Instrumentation of `decode` (not part of the source): follows the
source's steps 1-5 and reports whether the `usize` subtraction
`destuffed_pkt.len() - i - 2` (`src/lib.rs` line 256) underflows, i.e.
whether the destuffed length is below `i + 2` when the length byte is
read. -/
def step5Wraps (l : List Nat) : Bool :=
  if l.length < PACKET_MIN_LEN then false
  else if l.headD 0 ≠ FEND then false
  else
    match dry l with
    | .error _ => false
    | .ok ds =>
      match ds[1]? with
      | none => false
      | some d =>
        let i := if ADDR_MASK ≤ d then 3 else 2
        ds[i]?.isSome && decide (ds.length < i + 2)


/-! ## Helper lemmas -/

theorem map_eq_ok {e : Except WakeError (List Nat)} {f : List Nat → List Nat}
    {r : List Nat} (h : e.map f = .ok r) : ∃ t, e = .ok t ∧ r = f t := by
  cases e with
  | error a => simp [Except.map] at h
  | ok t => exact ⟨t, rfl, by simpa [Except.map] using h.symm⟩

theorem dry_nil : dry [] = .ok [] := rfl

theorem dry_single_FESC : dry [FESC] = .error .WrongPacketLength := rfl

theorem dry_step_esc (rest : List Nat) :
    dry (FESC :: TFESC :: rest) = (dry rest).map (fun t => FESC :: t) := rfl

theorem dry_step_end (rest : List Nat) :
    dry (FESC :: TFEND :: rest) = (dry rest).map (fun t => FEND :: t) := rfl

theorem dry_step_bad (x : Nat) (rest : List Nat) (h1 : x ≠ TFESC) (h2 : x ≠ TFEND) :
    dry (FESC :: x :: rest) = .error .DestuffingFailed := by
  rw [dry.eq_def]
  simp [h1, h2]

theorem dry_step_cons (x : Nat) (rest : List Nat) (h : x ≠ FESC) :
    dry (x :: rest) = (dry rest).map (fun t => x :: t) := by
  rw [dry.eq_def]
  cases rest <;> simp [h]

/-- Destuffing a list that contains no `FESC` byte returns it unchanged. -/
theorem dry_no_FESC : ∀ {l : List Nat}, FESC ∉ l → dry l = .ok l := by
  intro l
  induction l with
  | nil => intro _; rfl
  | cons x rest ih =>
    intro hmem
    have hx : ¬x = FESC := fun h => hmem (h ▸ List.mem_cons_self x rest)
    have hrest : FESC ∉ rest := fun h => hmem (List.mem_cons_of_mem x h)
    rw [dry_step_cons x rest hx, ih hrest]
    rfl

/-- Destuffing never lengthens a list. -/
theorem dry_length_le : ∀ {l r : List Nat}, dry l = .ok r → r.length ≤ l.length := by
  intro l
  induction l using dry.induct with
  | case1 =>
    intro r h
    rw [dry_nil] at h
    cases h
    simp
  | case2 => intro r h; rw [dry_single_FESC] at h; cases h
  | case3 rest ih =>
    intro r h
    rw [dry_step_esc] at h
    obtain ⟨t, ht, hr⟩ := map_eq_ok h
    subst hr
    have := ih ht
    simp only [List.length_cons]
    omega
  | case4 rest hne ih =>
    intro r h
    rw [dry_step_end] at h
    obtain ⟨t, ht, hr⟩ := map_eq_ok h
    subst hr
    have := ih ht
    simp only [List.length_cons]
    omega
  | case5 x rest hx1 hx2 =>
    intro r h
    rw [dry_step_bad x rest hx1 hx2] at h
    cases h
  | case6 x rest hx ih =>
    intro r h
    rw [dry_step_cons x rest hx] at h
    obtain ⟨t, ht, hr⟩ := map_eq_ok h
    subst hr
    have := ih ht
    simp only [List.length_cons]
    omega

/-- Destuffing a list of bytes yields a list of bytes. -/
theorem dry_bytes : ∀ {l r : List Nat}, dry l = .ok r →
    (∀ b ∈ l, b < 256) → ∀ b ∈ r, b < 256 := by
  intro l
  induction l using dry.induct with
  | case1 =>
    intro r h _
    rw [dry_nil] at h
    cases h
    intro b hb
    simp at hb
  | case2 => intro r h; rw [dry_single_FESC] at h; cases h
  | case3 rest ih =>
    intro r h hb
    rw [dry_step_esc] at h
    obtain ⟨t, ht, hr⟩ := map_eq_ok h
    subst hr
    intro b hbmem
    rcases List.mem_cons.mp hbmem with hb0 | hbt
    · subst hb0; decide
    · exact ih ht (fun y hy => hb y (by simp [hy])) b hbt
  | case4 rest hne ih =>
    intro r h hb
    rw [dry_step_end] at h
    obtain ⟨t, ht, hr⟩ := map_eq_ok h
    subst hr
    intro b hbmem
    rcases List.mem_cons.mp hbmem with hb0 | hbt
    · subst hb0; decide
    · exact ih ht (fun y hy => hb y (by simp [hy])) b hbt
  | case5 x rest hx1 hx2 =>
    intro r h
    rw [dry_step_bad x rest hx1 hx2] at h
    cases h
  | case6 x rest hx ih =>
    intro r h hb
    rw [dry_step_cons x rest hx] at h
    obtain ⟨t, ht, hr⟩ := map_eq_ok h
    subst hr
    intro b hbmem
    rcases List.mem_cons.mp hbmem with hb0 | hbt
    · exact hb b (by simp [hb0])
    · exact ih ht (fun y hy => hb y (by simp [hy])) b hbt

/-- Destuffing inverts stuffing of the tail of a frame. -/
theorem dry_stuffTail : ∀ t : List Nat, dry (stuffTail t) = .ok t := by
  intro t
  induction t with
  | nil => rfl
  | cons x rest ih =>
    by_cases hx : x = FESC
    · subst hx
      rw [stuffTail, if_pos rfl, dry_step_esc, ih]
      rfl
    · by_cases hx2 : x = FEND
      · subst hx2
        rw [stuffTail, if_neg (by decide), if_pos rfl, dry_step_end, ih]
        rfl
      · rw [stuffTail, if_neg hx, if_neg hx2, dry_step_cons x _ hx, ih]
        rfl

/-- Destuffing inverts stuffing of a whole frame starting with `FEND`. -/
theorem dry_stuff (t : List Nat) : dry (stuff (FEND :: t)) = .ok (FEND :: t) := by
  rw [stuff, dry_step_cons FEND _ (by decide), dry_stuffTail]
  rfl

/-- Stuffing never shortens the tail. -/
theorem stuffTail_length_le : ∀ t : List Nat, t.length ≤ (stuffTail t).length := by
  intro t
  induction t with
  | nil => simp [stuffTail]
  | cons x rest ih =>
    rw [stuffTail]
    by_cases hx : x = FESC
    · rw [if_pos hx]; simp only [List.length_cons]; omega
    · rw [if_neg hx]
      by_cases hx2 : x = FEND
      · rw [if_pos hx2]; simp only [List.length_cons]; omega
      · rw [if_neg hx2]; simp only [List.length_cons]; omega

/-- The stuffed tail never contains a literal `FEND`. -/
theorem FEND_not_mem_stuffTail : ∀ t : List Nat, FEND ∉ stuffTail t := by
  intro t
  induction t with
  | nil => simp [stuffTail]
  | cons x rest ih =>
    rw [stuffTail]
    by_cases hx : x = FESC
    · rw [if_pos hx]
      intro hmem
      rcases List.mem_cons.mp hmem with h | h
      · exact absurd h (by decide)
      · rcases List.mem_cons.mp h with h2 | h2
        · exact absurd h2 (by decide)
        · exact ih h2
    · rw [if_neg hx]
      by_cases hx2 : x = FEND
      · rw [if_pos hx2]
        intro hmem
        rcases List.mem_cons.mp hmem with h | h
        · exact absurd h (by decide)
        · rcases List.mem_cons.mp h with h2 | h2
          · exact absurd h2 (by decide)
          · exact ih h2
      · rw [if_neg hx2]
        intro hmem
        rcases List.mem_cons.mp hmem with h | h
        · exact hx2 h.symm
        · exact ih h

/-- In a stuffed tail, every `FESC` is immediately followed by `TFESC` or
`TFEND`. -/
theorem stuffTail_escaped : ∀ (t : List Nat) (i : Nat),
    (stuffTail t)[i]? = some FESC →
    (stuffTail t)[i + 1]? = some TFESC ∨ (stuffTail t)[i + 1]? = some TFEND := by
  intro t
  induction t with
  | nil => intro i h; simp [stuffTail] at h
  | cons x rest ih =>
    intro i
    rw [stuffTail]
    by_cases hx : x = FESC
    · rw [if_pos hx]
      rcases i with - | (- | j)
      · intro _
        left
        simp
      · intro h
        rw [List.getElem?_cons_succ, List.getElem?_cons_zero] at h
        exact absurd (Option.some.inj h) (by decide)
      · intro h
        rw [List.getElem?_cons_succ, List.getElem?_cons_succ] at h
        have := ih j h
        simpa using this
    · rw [if_neg hx]
      by_cases hx2 : x = FEND
      · rw [if_pos hx2]
        rcases i with - | (- | j)
        · intro _
          right
          simp
        · intro h
          rw [List.getElem?_cons_succ, List.getElem?_cons_zero] at h
          exact absurd (Option.some.inj h) (by decide)
        · intro h
          rw [List.getElem?_cons_succ, List.getElem?_cons_succ] at h
          have := ih j h
          simpa using this
      · rw [if_neg hx2]
        rcases i with - | j
        · intro h
          rw [List.getElem?_cons_zero] at h
          exact absurd (Option.some.inj h) hx
        · intro h
          rw [List.getElem?_cons_succ] at h
          have := ih j h
          simpa using this

/-- Bit facts about the address marking: for a 7-bit address `a`,
`a ||| 0x80` is at least `0x80` and masking the high bit off recovers `a`. -/
theorem addr_mark_facts : ∀ a, a < 128 →
    (a ||| 128 = a + 128 ∧ 128 ≤ a ||| 128 ∧ (a ||| 128) &&& 127 = a) := by decide

theorem two_pow_64 : (2 : Int) ^ 64 = 18446744073709551616 := by norm_num

/-- Evaluation of `decodeBody` on a well-formed destuffed frame carrying a
non-empty data section. -/
theorem decodeBody_data (front d : List Nat) (addr : Option Nat) (cmd : Nat)
    (h1 : 1 ≤ d.length) (h2 : d.length ≤ 255) :
    decodeBody (front ++ d.length :: (d ++ [crc (front ++ d.length :: d)]))
      addr cmd front.length
      = .ok { address := addr, command := cmd, data := some d } := by
  set c := crc (front ++ d.length :: d) with hc
  set ds := front ++ d.length :: (d ++ [c]) with hds
  have hassoc1 : ds = (front ++ [d.length]) ++ (d ++ [c]) := by simp [hds]
  have hassoc2 : ds = (front ++ d.length :: d) ++ [c] := by simp [hds]
  have hdslen : ds.length = front.length + d.length + 2 := by
    simp [hds]
    omega
  have hget : ds[front.length]? = some d.length := by
    rw [hds, List.getElem?_append_right (le_refl _)]
    simp
  have hguard : (((ds.length : Int) - (front.length : Int) - 2).emod (2 ^ 64))
      = ((d.length : Int)) := by
    rw [hdslen]
    rw [show ((front.length + d.length + 2 : Nat) : Int) - (front.length : Int) - 2
        = (d.length : Int) by push_cast; ring]
    refine Int.emod_eq_of_lt (by positivity) ?_
    rw [two_pow_64]
    have : (d.length : Int) ≤ 255 := by exact_mod_cast h2
    omega
  have hdrop : ds.drop (front.length + 1) = d ++ [c] := by
    rw [hassoc1, show front.length + 1 = (front ++ [d.length]).length by simp]
    exact List.drop_left _ _
  have htake : ds.length - 1 - (front.length + 1) = d.length := by
    rw [hdslen]
    omega
  have hlast : ds.getLast? = some c := by
    rw [hassoc2]
    exact List.getLast?_concat _
  have hbody : ds.take (ds.length - 1) = front ++ d.length :: d := by
    rw [hdslen, hassoc2,
      show front.length + d.length + 2 - 1 = (front ++ d.length :: d).length by
        simp
        omega]
    exact List.take_left _ _
  have hd0 : ¬(d.length = 0) := by omega
  simp only [decodeBody, hget, hguard, hdrop, htake, hlast, hbody, hd0,
    ne_eq, not_true_eq_false, if_false, if_neg, ite_false, Option.getD_some]
  rw [List.take_left]

/-- Evaluation of `decodeBody` on a well-formed destuffed frame with an
empty data section. -/
theorem decodeBody_nodata (front : List Nat) (addr : Option Nat) (cmd : Nat) :
    decodeBody (front ++ 0 :: [crc (front ++ [0])]) addr cmd front.length
      = .ok { address := addr, command := cmd, data := none } := by
  set c := crc (front ++ [0]) with hc
  set ds := front ++ 0 :: [c] with hds
  have hassoc2 : ds = (front ++ [0]) ++ [c] := by simp [hds]
  have hdslen : ds.length = front.length + 2 := by
    simp [hds]
  have hget : ds[front.length]? = some 0 := by
    rw [hds, List.getElem?_append_right (le_refl _)]
    simp
  have hguard : (((ds.length : Int) - (front.length : Int) - 2).emod (2 ^ 64))
      = ((0 : Nat) : Int) := by
    rw [hdslen]
    rw [show ((front.length + 2 : Nat) : Int) - (front.length : Int) - 2
        = ((0 : Nat) : Int) by push_cast; ring]
    refine Int.emod_eq_of_lt (by positivity) ?_
    rw [two_pow_64]
    omega
  have hlast : ds.getLast? = some c := by
    rw [hassoc2]
    exact List.getLast?_concat _
  have hbody : ds.take (ds.length - 1) = front ++ [0] := by
    rw [hdslen, hassoc2,
      show front.length + 2 - 1 = (front ++ [0]).length by
        simp]
    exact List.take_left _ _
  simp only [decodeBody, hget, hguard, hlast, hbody, Option.getD_some]
  rw [if_neg (by simp)]
  simp [← hc]

/-- The first four steps of `decode` on a stuffed frame: the length floor
and the start-marker check pass and destuffing recovers the frame. -/
theorem decode_stuff_reaches (t : List Nat) (h3 : 3 ≤ t.length) :
    decode (stuff (FEND :: t)) =
      (match (FEND :: t)[1]? with
      | none => .error .TooShortPacket
      | some d =>
        if ADDR_MASK ≤ d then
          match (FEND :: t)[2]? with
          | none => .error .TooShortPacket
          | some cmd => decodeBody (FEND :: t) (some (d &&& 0x7F)) cmd 3
        else decodeBody (FEND :: t) none d 2) := by
  have hlen : ¬(stuff (FEND :: t)).length < PACKET_MIN_LEN := by
    rw [stuff]
    have := stuffTail_length_le t
    simp only [List.length_cons, PACKET_MIN_LEN]
    omega
  have hhead : ¬(stuff (FEND :: t)).headD 0 ≠ FEND := by
    rw [stuff]
    simp
  unfold decode
  rw [if_neg hlen, if_neg hhead, dry_stuff]

/-- Decoding a stuffed frame without address and with data. -/
theorem decode_frame_noaddr_data (cmd : Nat) (d : List Nat)
    (hcmd : cmd ≤ 127) (h1 : 1 ≤ d.length) (h2 : d.length ≤ 255) :
    decode (stuff (FEND :: cmd :: d.length ::
        (d ++ [crc (FEND :: cmd :: d.length :: d)])))
      = .ok { address := none, command := cmd, data := some d } := by
  rw [decode_stuff_reaches _ (by simp)]
  simp only [List.getElem?_cons_succ, List.getElem?_cons_zero, ADDR_MASK]
  rw [if_neg (by omega)]
  exact decodeBody_data [FEND, cmd] d none cmd h1 h2

/-- Decoding a stuffed frame without address and without data. -/
theorem decode_frame_noaddr_nodata (cmd : Nat) (hcmd : cmd ≤ 127) :
    decode (stuff (FEND :: cmd :: 0 :: [crc [FEND, cmd, 0]]))
      = .ok { address := none, command := cmd, data := none } := by
  rw [decode_stuff_reaches _ (by simp)]
  simp only [List.getElem?_cons_succ, List.getElem?_cons_zero, ADDR_MASK]
  rw [if_neg (by omega)]
  exact decodeBody_nodata [FEND, cmd] none cmd

/-- Decoding a stuffed frame with address and data. -/
theorem decode_frame_addr_data (a cmd : Nat) (d : List Nat)
    (ha : a ≤ 127) (hcmd : cmd ≤ 127) (h1 : 1 ≤ d.length) (h2 : d.length ≤ 255) :
    decode (stuff (FEND :: (a ||| ADDR_MASK) :: cmd :: d.length ::
        (d ++ [crc (FEND :: (a ||| ADDR_MASK) :: cmd :: d.length :: d)])))
      = .ok { address := some a, command := cmd, data := some d } := by
  obtain ⟨-, hge, hmask⟩ := addr_mark_facts a (by omega)
  rw [decode_stuff_reaches _ (by simp)]
  simp only [List.getElem?_cons_succ, List.getElem?_cons_zero, ADDR_MASK]
  rw [if_pos hge]
  rw [show (a ||| 128) &&& 0x7F = a from hmask]
  exact decodeBody_data [FEND, a ||| 128, cmd] d (some a) cmd h1 h2

/-- Decoding a stuffed frame with address and without data. -/
theorem decode_frame_addr_nodata (a cmd : Nat) (ha : a ≤ 127) (hcmd : cmd ≤ 127) :
    decode (stuff (FEND :: (a ||| ADDR_MASK) :: cmd :: 0 ::
        [crc [FEND, a ||| ADDR_MASK, cmd, 0]]))
      = .ok { address := some a, command := cmd, data := none } := by
  obtain ⟨-, hge, hmask⟩ := addr_mark_facts a (by omega)
  rw [decode_stuff_reaches _ (by simp)]
  simp only [List.getElem?_cons_succ, List.getElem?_cons_zero, ADDR_MASK]
  rw [if_pos hge]
  rw [show (a ||| 128) &&& 0x7F = a from hmask]
  exact decodeBody_nodata [FEND, a ||| 128, cmd] (some a) cmd

/-- When the length byte sits at the last position of the destuffed
buffer, the wrapped length comparison yields `2 ^ 64 - 1`, which no byte
equals, so `decodeBody` reports a wrong packet length. -/
theorem decodeBody_wrap (ds : List Nat) (addr : Option Nat) (cmd i dataLen : Nat)
    (hget : ds[i]? = some dataLen) (hdl : dataLen < 256)
    (hlen : ds.length = i + 1) :
    decodeBody ds addr cmd i = .error .WrongPacketLength := by
  simp only [decodeBody, hget]
  rw [if_pos ?hcond]
  case hcond =>
    rw [hlen]
    rw [show ((i + 1 : Nat) : Int) - (i : Int) - 2 = -1 by push_cast; ring]
    rw [show ((-1 : Int)).emod (2 ^ 64) = 18446744073709551615 by decide]
    intro hcontra
    have : (dataLen : Int) < 256 := by exact_mod_cast hdl
    omega

/-! ## Claims -/

/-- C1 (amended): for every valid `Packet` (address `none` or in
`[0,127]`, command in `[0,127]`, data `none` or a sequence of length 1 to
255), `encode` succeeds and `decode (encode p)` returns a `Packet` equal
to `p`.  (The original claim also allowed data of length 0; `decode`
normalizes `some []` to `none`, see the counterexample.) -/
theorem c1_roundtrip (addr : Option Nat) (cmd : Nat) (dataOpt : Option (List Nat))
    (ha : ∀ x, addr = some x → x ≤ 127)
    (hc : cmd ≤ 127)
    (hd : ∀ d, dataOpt = some d → 1 ≤ d.length ∧ d.length ≤ 255) :
    (encode { address := addr, command := cmd, data := dataOpt }).bind decode
      = .ok { address := addr, command := cmd, data := dataOpt } := by
  cases addr with
  | none =>
    cases dataOpt with
    | none =>
      simp only [encode, encodeFrame, addrBytes, Except.bind]
      rw [if_neg (by omega : ¬(0x7F < cmd))]
      simpa using decode_frame_noaddr_nodata cmd hc
    | some d =>
      obtain ⟨h1, h2⟩ := hd d rfl
      simp only [encode, encodeFrame, addrBytes, Except.bind]
      rw [if_neg (by omega : ¬(0x7F < cmd))]
      rw [Nat.mod_eq_of_lt (by omega : d.length < 256)]
      simpa using decode_frame_noaddr_data cmd d hc h1 h2
  | some a =>
    have ha2 := ha a rfl
    cases dataOpt with
    | none =>
      simp only [encode, encodeFrame, addrBytes, Except.bind]
      rw [if_neg (by omega : ¬(0x7F < a)), if_neg (by omega : ¬(0x7F < cmd))]
      simpa using decode_frame_addr_nodata a cmd ha2 hc
    | some d =>
      obtain ⟨h1, h2⟩ := hd d rfl
      simp only [encode, encodeFrame, addrBytes, Except.bind]
      rw [if_neg (by omega : ¬(0x7F < a)), if_neg (by omega : ¬(0x7F < cmd))]
      rw [Nat.mod_eq_of_lt (by omega : d.length < 256)]
      simpa using decode_frame_addr_data a cmd d ha2 hc h1 h2

/-- C1 (counterexample): the packet with `data = some []` is valid in the
sense of the original claim (data length 0), but the round trip returns
`data = none`, a different `Packet`. -/
theorem c1_counterexample :
    (encode { address := none, command := 0, data := some [] }).bind decode
      = .ok { address := none, command := 0, data := none } ∧
    ({ address := none, command := 0, data := none } : Packet)
      ≠ { address := none, command := 0, data := some [] } := by
  constructor
  · rfl
  · decide

/-- C1 (witness): the round trip at a concrete valid packet. -/
theorem c1_witness :
    (encode { address := some 0x12, command := 3, data := some [0x00, 0xEB] }).bind decode
      = .ok { address := some 0x12, command := 3, data := some [0x00, 0xEB] } :=
  c1_roundtrip (some 0x12) 3 (some [0x00, 0xEB])
    (fun x hx => by cases hx; decide) (by decide)
    (fun d hd => by cases hd; exact ⟨by decide, by decide⟩)

/-- C2 (amended): `decode` is total over byte inputs (it always returns a
`Packet` or a `WakeError`), but the declared-length comparison at step 5
is performed with wrapping `usize` arithmetic and does underflow for some
inputs that pass the earlier checks; whenever it underflows, `decode`
returns the wrong-packet-length error. -/
theorem c2_amended (l : List Nat) (hb : ∀ b ∈ l, b < 256)
    (hw : step5Wraps l = true) : decode l = .error .WrongPacketLength := by
  unfold step5Wraps at hw
  by_cases h1 : l.length < PACKET_MIN_LEN
  · rw [if_pos h1] at hw
    cases hw
  rw [if_neg h1] at hw
  by_cases h2 : l.headD 0 ≠ FEND
  · rw [if_pos h2] at hw
    cases hw
  rw [if_neg h2] at hw
  cases hdry : dry l with
  | error e =>
    rw [hdry] at hw
    cases hw
  | ok ds =>
    rw [hdry] at hw
    dsimp only at hw
    have hbds : ∀ b ∈ ds, b < 256 := dry_bytes hdry hb
    cases hget1 : ds[1]? with
    | none =>
      rw [hget1] at hw
      cases hw
    | some d =>
      rw [hget1] at hw
      dsimp only at hw
      unfold decode
      rw [if_neg h1, if_neg h2, hdry]
      dsimp only
      rw [hget1]
      dsimp only
      by_cases hd : ADDR_MASK ≤ d
      · rw [if_pos hd] at hw
        simp only [Bool.and_eq_true, decide_eq_true_eq,
          Option.isSome_iff_exists] at hw
        obtain ⟨⟨dataLen, hget3⟩, hlt⟩ := hw
        have h3lt : 3 < ds.length := by
          by_contra hle
          push_neg at hle
          rw [List.getElem?_eq_none (by omega)] at hget3
          cases hget3
        have hlen4 : ds.length = 4 := by omega
        rw [if_pos hd, List.getElem?_eq_getElem (show 2 < ds.length by omega)]
        exact decodeBody_wrap ds _ _ 3 dataLen hget3
          (hbds dataLen (List.getElem?_mem hget3)) hlen4
      · rw [if_neg hd] at hw
        simp only [Bool.and_eq_true, decide_eq_true_eq,
          Option.isSome_iff_exists] at hw
        obtain ⟨⟨dataLen, hget3⟩, hlt⟩ := hw
        have h2lt : 2 < ds.length := by
          by_contra hle
          push_neg at hle
          rw [List.getElem?_eq_none (by omega)] at hget3
          cases hget3
        have hlen3 : ds.length = 3 := by omega
        rw [if_neg hd]
        exact decodeBody_wrap ds none d 2 dataLen hget3
          (hbds dataLen (List.getElem?_mem hget3)) hlen3

/-- C2 (counterexample): the byte buffer `[FEND, 0x01, FESC, TFEND]`
passes the length, start-marker and destuffing checks (it destuffs to the
3-byte buffer `[FEND, 0x01, FEND]`), and then the step-5 comparison
`destuffed.len() - i - 2` underflows; `decode` reports a wrong packet
length. -/
theorem c2_counterexample :
    step5Wraps [0xC0, 0x01, 0xDB, 0xDC] = true ∧
    decode [0xC0, 0x01, 0xDB, 0xDC] = .error .WrongPacketLength := ⟨rfl, rfl⟩

/-- C2 (witness): the amended theorem applied at the underflowing input. -/
theorem c2_witness : decode [0xC0, 0x01, 0xDB, 0xDC] = .error .WrongPacketLength :=
  c2_amended [0xC0, 0x01, 0xDB, 0xDC] (by decide) (by rfl)

theorem two_pow_64_nat : (2 : Nat) ^ 64 = 18446744073709551616 := by norm_num

/-- Inversion of a successful `decodeBody`: the packet carries exactly the
given address and command, and its data (when present) has at most 255
bytes. -/
theorem decodeBody_ok_inv {ds : List Nat} {addr : Option Nat} {cmd i : Nat}
    {p : Packet} (hb : ∀ b ∈ ds, b < 256) (hlen : ds.length < 2 ^ 64)
    (h : decodeBody ds addr cmd i = .ok p) :
    p.address = addr ∧ p.command = cmd ∧
    (∀ d, p.data = some d → d.length ≤ 255) := by
  rw [two_pow_64_nat] at hlen
  unfold decodeBody at h
  cases hget : ds[i]? with
  | none =>
    rw [hget] at h
    cases h
  | some dataLen =>
    rw [hget] at h
    dsimp only at h
    have hi : i < ds.length := by
      by_contra hle
      push_neg at hle
      rw [List.getElem?_eq_none (by omega)] at hget
      cases hget
    have hdl256 : dataLen < 256 := hb dataLen (List.getElem?_mem hget)
    by_cases hguard : (((ds.length : Int) - (i : Int) - 2).emod (2 ^ 64))
        = (dataLen : Int)
    case neg =>
      rw [if_pos hguard] at h
      cases h
    rw [if_neg (by simpa using hguard)] at h
    by_cases hcrc : (ds.getLast?).getD 0 ≠ crc (ds.take (ds.length - 1))
    · rw [if_pos hcrc] at h
      cases h
    rw [if_neg hcrc] at h
    simp only [Except.ok.injEq] at h
    subst h
    have hnum : ds.length = i + 2 + dataLen := by
      rcases Nat.lt_or_ge ds.length (i + 2) with hlt | hge
      · exfalso
        have hlen1 : ds.length = i + 1 := by omega
        rw [hlen1, show ((i + 1 : Nat) : Int) - (i : Int) - 2 = -1 by push_cast; ring,
          show ((-1 : Int)).emod (2 ^ 64) = 18446744073709551615 by decide] at hguard
        have : (dataLen : Int) < 256 := by exact_mod_cast hdl256
        omega
      · rw [show ((ds.length : Nat) : Int) - (i : Int) - 2
            = ((ds.length - i - 2 : Nat) : Int) by omega] at hguard
        rw [show ((ds.length - i - 2 : Nat) : Int).emod (2 ^ 64)
            = ((ds.length - i - 2 : Nat) : Int) from
          Int.emod_eq_of_lt (Int.natCast_nonneg _)
            (by rw [two_pow_64]; omega)] at hguard
        have : ds.length - i - 2 = dataLen := by exact_mod_cast hguard
        omega
    refine ⟨rfl, rfl, ?_⟩
    intro d hd
    by_cases hdl : dataLen = 0
    · rw [if_pos hdl] at hd
      cases hd
    · rw [if_neg hdl] at hd
      simp only [Option.some.injEq] at hd
      subst hd
      simp only [List.length_take, List.length_drop]
      omega

/-- C3 (amended): every `Packet` returned by a successful `decode` of a
byte buffer has an address in `[0,127]` when present and data of at most
255 bytes when present, and its command is in `[0,127]` whenever the
frame carries no address byte; when an address byte is present the
following command byte is taken unchecked and may exceed 127. -/
theorem c3_amended (l : List Nat) (p : Packet)
    (hb : ∀ b ∈ l, b < 256) (hlen : l.length < 2 ^ 64)
    (h : decode l = .ok p) :
    (∀ a, p.address = some a → a ≤ 127) ∧
    (p.address = none → p.command ≤ 127) ∧
    (∀ d, p.data = some d → d.length ≤ 255) := by
  unfold decode at h
  by_cases h1 : l.length < PACKET_MIN_LEN
  · rw [if_pos h1] at h
    cases h
  rw [if_neg h1] at h
  by_cases h2 : l.headD 0 ≠ FEND
  · rw [if_pos h2] at h
    cases h
  rw [if_neg h2] at h
  cases hdry : dry l with
  | error e =>
    rw [hdry] at h
    cases h
  | ok ds =>
    rw [hdry] at h
    dsimp only at h
    have hbds := dry_bytes hdry hb
    have hdslen : ds.length < 2 ^ 64 := lt_of_le_of_lt (dry_length_le hdry) hlen
    cases hget1 : ds[1]? with
    | none =>
      rw [hget1] at h
      cases h
    | some d =>
      rw [hget1] at h
      dsimp only at h
      by_cases hd : ADDR_MASK ≤ d
      · rw [if_pos hd] at h
        cases hget2 : ds[2]? with
        | none =>
          rw [hget2] at h
          cases h
        | some cmd =>
          rw [hget2] at h
          dsimp only at h
          obtain ⟨hpa, hpc, hpd⟩ := decodeBody_ok_inv hbds hdslen h
          refine ⟨?_, ?_, hpd⟩
          · intro a hax
            rw [hpa] at hax
            simp only [Option.some.injEq] at hax
            subst hax
            exact Nat.and_le_right
          · intro hnone
            rw [hpa] at hnone
            cases hnone
      · rw [if_neg hd] at h
        obtain ⟨hpa, hpc, hpd⟩ := decodeBody_ok_inv hbds hdslen h
        refine ⟨?_, ?_, hpd⟩
        · intro a hax
          rw [hpa] at hax
          cases hax
        · intro _
          rw [hpc]
          have : d < 128 := by simpa [ADDR_MASK] using hd
          omega

/-- C3 (counterexample): the byte buffer `[FEND, 0x81, 0xFF, 0x00, 0x65]`
has a correct CRC and decodes successfully, yet the returned packet has
command `0xFF = 255`, outside `[0,127]`: the command byte following an
address byte is not range-checked. -/
theorem c3_counterexample :
    decode [0xC0, 0x81, 0xFF, 0x00, 0x65]
      = .ok { address := some 1, command := 255, data := none } ∧
    ¬(255 ≤ 127) :=
  ⟨rfl, by decide⟩

/-- C3 (witness): the amended invariants at a concrete decoded buffer. -/
theorem c3_witness :
    (∀ a, ({ address := none, command := 3, data := some [1, 2, 3, 4, 5] } : Packet).address
        = some a → a ≤ 127) ∧
    (({ address := none, command := 3, data := some [1, 2, 3, 4, 5] } : Packet).address
        = none →
      ({ address := none, command := 3, data := some [1, 2, 3, 4, 5] } : Packet).command ≤ 127) ∧
    (∀ d, ({ address := none, command := 3, data := some [1, 2, 3, 4, 5] } : Packet).data
        = some d → d.length ≤ 255) :=
  c3_amended [0xC0, 0x03, 0x05, 1, 2, 3, 4, 5, 0x6B]
    { address := none, command := 3, data := some [1, 2, 3, 4, 5] }
    (by decide) (by norm_num) (by rfl)

/-- C4 (amended): appending a dangling `FESC` to any non-empty buffer that
destuffs cleanly makes `dry` fail, but with the wrong-packet-length
error, not the destuffing-failed error.  (The empty prefix is excluded:
on the single input `[FESC]` the Rust code panics instead of returning.) -/
theorem c4_amended : ∀ (m r : List Nat), m ≠ [] → dry m = .ok r →
    dry (m ++ [FESC]) = .error .WrongPacketLength := by
  intro m
  induction m using dry.induct with
  | case1 => intro r hne _; exact absurd rfl hne
  | case2 =>
    intro r _ h
    rw [dry_single_FESC] at h
    cases h
  | case3 rest ih =>
    intro r _ h
    rw [dry_step_esc] at h
    obtain ⟨t, ht, -⟩ := map_eq_ok h
    simp only [List.cons_append]
    rw [dry_step_esc]
    by_cases hrest : rest = []
    · subst hrest
      rw [List.nil_append, dry_single_FESC]
      rfl
    · rw [ih t hrest ht]
      rfl
  | case4 rest hne2 ih =>
    intro r _ h
    rw [dry_step_end] at h
    obtain ⟨t, ht, -⟩ := map_eq_ok h
    simp only [List.cons_append]
    rw [dry_step_end]
    by_cases hrest : rest = []
    · subst hrest
      rw [List.nil_append, dry_single_FESC]
      rfl
    · rw [ih t hrest ht]
      rfl
  | case5 x rest hx1 hx2 =>
    intro r _ h
    rw [dry_step_bad x rest hx1 hx2] at h
    cases h
  | case6 x rest hx ih =>
    intro r _ h
    rw [dry_step_cons x rest hx] at h
    obtain ⟨t, ht, -⟩ := map_eq_ok h
    simp only [List.cons_append]
    rw [dry_step_cons x _ hx]
    by_cases hrest : rest = []
    · subst hrest
      rw [List.nil_append, dry_single_FESC]
      rfl
    · rw [ih t hrest ht]
      rfl

/-- C4 (counterexample): the buffer `[0x01, FESC]` ends in a truncated
escape; `dry` fails with the wrong-packet-length error, which is not the
destuffing-failed error. -/
theorem c4_counterexample :
    dry [0x01, 0xDB] = .error .WrongPacketLength ∧
    WakeError.WrongPacketLength ≠ WakeError.DestuffingFailed :=
  ⟨rfl, by decide⟩

/-- C4 (witness): the amended theorem at the concrete prefix `[0x01]`. -/
theorem c4_witness : dry ([0x01] ++ [FESC]) = .error .WrongPacketLength :=
  c4_amended [0x01] [0x01] (by decide) rfl

/-- C5 (amended): for every packet with in-range address and command whose
data is longer than 255 bytes, `encode` does not fail: it emits the data
length reduced modulo 256 as the single length byte and still appends all
data bytes.  (The original claim omitted the address/command range
conditions, without which `encode` fails on those fields first.) -/
theorem c5_long_data (addr : Option Nat) (cmd : Nat) (d : List Nat)
    (ha : ∀ x, addr = some x → x ≤ 127) (hc : cmd ≤ 127)
    (hlong : 255 < d.length) :
    encode { address := addr, command := cmd, data := some d }
      = .ok (stuff ((FEND :: (addrBytes addr ++ cmd :: (d.length % 256) :: d))
        ++ [crc (FEND :: (addrBytes addr ++ cmd :: (d.length % 256) :: d))])) := by
  cases addr with
  | none =>
    simp only [encode, encodeFrame]
    rw [if_neg (by omega : ¬(0x7F < cmd))]
  | some a =>
    have ha2 := ha a rfl
    simp only [encode, encodeFrame]
    rw [if_neg (by omega : ¬(0x7F < a)), if_neg (by omega : ¬(0x7F < cmd))]

/-- C5 (counterexample): a packet with 256 data bytes but an out-of-range
command makes `encode` fail, so "encode does not fail" does not hold for
every packet with overlong data. -/
theorem c5_counterexample :
    encode { address := none, command := 128, data := some (List.replicate 256 0) }
      = .error .WrongCmdRange ∧
    255 < (List.replicate 256 (0 : Nat)).length :=
  ⟨rfl, by simp⟩

/-- C5 (witness): the amended theorem at a concrete 256-byte payload. -/
theorem c5_witness :
    encode { address := none, command := 1, data := some (List.replicate 256 5) }
      = .ok (stuff ((FEND :: (addrBytes none ++ 1 ::
          ((List.replicate 256 (5 : Nat)).length % 256) :: List.replicate 256 5))
        ++ [crc (FEND :: (addrBytes none ++ 1 ::
          ((List.replicate 256 (5 : Nat)).length % 256) :: List.replicate 256 5))])) :=
  c5_long_data none 1 (List.replicate 256 5) (fun x hx => by cases hx)
    (by decide) (by simp)

theorem stuff_cons (x : Nat) (rest : List Nat) :
    stuff (x :: rest) = x :: stuffTail rest := rfl

theorem encodeFrame_cons (p : Packet) : ∃ t, encodeFrame p = FEND :: t :=
  ⟨_, rfl⟩

/-- A successful `encode` returns exactly the stuffed frame. -/
theorem encode_ok_stuff {p : Packet} {out : List Nat} (h : encode p = .ok out) :
    out = stuff (encodeFrame p) := by
  unfold encode at h
  cases haddr : p.address with
  | some a =>
    rw [haddr] at h
    dsimp only at h
    by_cases h1 : 0x7F < a
    · rw [if_pos h1] at h
      cases h
    rw [if_neg h1] at h
    by_cases h2 : 0x7F < p.command
    · rw [if_pos h2] at h
      cases h
    rw [if_neg h2] at h
    simp only [Except.ok.injEq] at h
    exact h.symm
  | none =>
    rw [haddr] at h
    dsimp only at h
    by_cases h2 : 0x7F < p.command
    · rw [if_pos h2] at h
      cases h
    rw [if_neg h2] at h
    simp only [Except.ok.injEq] at h
    exact h.symm

/-- C6 (confirmed): in every successful `encode` output, the reserved byte
`FEND` occurs only at index 0, and every occurrence of the reserved byte
`FESC` is immediately followed by `TFESC` or `TFEND`. -/
theorem c6_no_reserved (p : Packet) (out : List Nat) (h : encode p = .ok out) :
    (∀ i, out[i]? = some FEND → i = 0) ∧
    (∀ i, out[i]? = some FESC →
      out[i + 1]? = some TFESC ∨ out[i + 1]? = some TFEND) := by
  obtain ⟨t, ht⟩ := encodeFrame_cons p
  have hout : out = FEND :: stuffTail t := by
    rw [encode_ok_stuff h, ht, stuff_cons]
  subst hout
  constructor
  · intro i hi
    cases i with
    | zero => rfl
    | succ j =>
      rw [List.getElem?_cons_succ] at hi
      exact absurd (List.getElem?_mem hi) (FEND_not_mem_stuffTail t)
  · intro i hi
    cases i with
    | zero =>
      rw [List.getElem?_cons_zero] at hi
      exact absurd (Option.some.inj hi) (by decide)
    | succ j =>
      rw [List.getElem?_cons_succ] at hi
      have := stuffTail_escaped t j hi
      simpa [List.getElem?_cons_succ] using this

/-- C6 (witness): the escape property at a concrete packet whose encoding
contains an escape sequence. -/
theorem c6_witness :
    (∀ i, ([0xC0, 0xDB, 0xDC, 0x40, 0x00, 229] : List Nat)[i]? = some FEND → i = 0) ∧
    (∀ i, ([0xC0, 0xDB, 0xDC, 0x40, 0x00, 229] : List Nat)[i]? = some FESC →
      ([0xC0, 0xDB, 0xDC, 0x40, 0x00, 229] : List Nat)[i + 1]? = some TFESC ∨
      ([0xC0, 0xDB, 0xDC, 0x40, 0x00, 229] : List Nat)[i + 1]? = some TFEND) :=
  c6_no_reserved { address := some 0x40, command := 0x40, data := none }
    [0xC0, 0xDB, 0xDC, 0x40, 0x00, 229] rfl

/-- C7 (confirmed): for every valid starting byte sequence (at least
three bytes, as asserted by the stuffer) whose first byte is `FEND`,
destuffing inverts stuffing exactly. -/
theorem c7_destuff_stuff (l : List Nat) (hlen : 3 ≤ l.length)
    (hhead : l.headD 0 = FEND) : dry (stuff l) = .ok l := by
  match l with
  | [] => simp at hlen
  | x :: t =>
    have hx : x = FEND := by simpa using hhead
    subst hx
    exact dry_stuff t

/-- C7 (witness): the round trip at the minimal frame `[FEND, 3, 0]`. -/
theorem c7_witness : dry (stuff [0xC0, 3, 0]) = .ok [0xC0, 3, 0] :=
  c7_destuff_stuff [0xC0, 3, 0] (by decide) rfl

/-- Among the 128 valid commands, only `cmd = 29` makes the CRC of the
minimal frame `[FEND, cmd, 0]` equal to the reserved byte `FESC`. -/
theorem crc_min_frame_ne_FESC : ∀ cmd, cmd < 128 → cmd ≠ 29 →
    crc [FEND, cmd, 0] ≠ FESC := by decide

/-- C8 (amended): every buffer of length 3 or less decodes to the
too-short error, and for every command `cmd` in `[0,127]` other than 29,
the 4-byte buffer `[FEND, cmd, 0, crc]` with correct CRC decodes to a
packet with no address, command `cmd` and no data.  (For `cmd = 29` the
correct CRC byte is the reserved byte `FESC = 0xDB`, so the raw 4-byte
buffer fails destuffing instead — see the counterexample.) -/
theorem c8_min_length :
    (∀ l : List Nat, l.length ≤ 3 → decode l = .error .TooShortPacket) ∧
    (∀ cmd, cmd ≤ 127 → cmd ≠ 29 →
      decode [FEND, cmd, 0, crc [FEND, cmd, 0]]
        = .ok { address := none, command := cmd, data := none }) := by
  constructor
  · intro l hl
    unfold decode
    rw [if_pos (by simp only [PACKET_MIN_LEN]; omega)]
  · intro cmd hcmd h29
    have hcrc : crc [FEND, cmd, 0] ≠ FESC :=
      crc_min_frame_ne_FESC cmd (by omega) h29
    have hnofesc : FESC ∉ [FEND, cmd, 0, crc [FEND, cmd, 0]] := by
      intro hmem
      simp only [List.mem_cons, List.not_mem_nil, or_false] at hmem
      rcases hmem with h | h | h | h
      · exact absurd h (by decide)
      · rw [show FESC = 219 from rfl] at h
        omega
      · exact absurd h (by decide)
      · exact hcrc h.symm
    unfold decode
    rw [if_neg (by simp [PACKET_MIN_LEN]), if_neg (by simp),
      dry_no_FESC hnofesc]
    dsimp only
    rw [show ([FEND, cmd, 0, crc [FEND, cmd, 0]] : List Nat)[1]? = some cmd from rfl]
    dsimp only
    rw [if_neg (by simp only [ADDR_MASK]; omega)]
    exact decodeBody_nodata [FEND, cmd] none cmd

/-- C8 (counterexample): `cmd = 29` is in `[0,127]` and the correct CRC of
`[FEND, 29, 0]` is `0xDB = FESC`, so the 4-byte buffer with correct CRC
ends in a bare escape byte and `decode` fails with the wrong-packet-length
error instead of succeeding. -/
theorem c8_counterexample :
    (29 : Nat) ≤ 127 ∧ crc [0xC0, 29, 0] = 0xDB ∧
    decode [0xC0, 29, 0, 0xDB] = .error .WrongPacketLength :=
  ⟨by decide, by decide, rfl⟩

/-- C8 (witness): both amended parts at concrete inputs. -/
theorem c8_witness :
    decode [1, 2] = .error .TooShortPacket ∧
    decode [FEND, 3, 0, crc [FEND, 3, 0]]
      = .ok { address := none, command := 3, data := none } :=
  ⟨c8_min_length.1 [1, 2] (by decide),
    c8_min_length.2 3 (by decide) (by decide)⟩

/-- C9 (confirmed): encoding `{address := some 0x12, command := 3,
data := some [0x00, 0xEB]}` yields exactly
`[0xC0, 0x92, 0x03, 0x02, 0x00, 0xEB, 0x72]`, and decoding those bytes
returns the original packet. -/
theorem c9_concrete :
    encode { address := some 0x12, command := 3, data := some [0x00, 0xEB] }
      = .ok [0xC0, 0x92, 0x03, 0x02, 0x00, 0xEB, 0x72] ∧
    decode [0xC0, 0x92, 0x03, 0x02, 0x00, 0xEB, 0x72]
      = .ok { address := some 0x12, command := 3, data := some [0x00, 0xEB] } :=
  ⟨rfl, rfl⟩

/-- C10 (confirmed): the CRC-8 function starting from `0xDE` with the
bit-serial LSB-first update gives `crc [1,2,3,4,5] = 0xD6`,
`crc [0xC0, 0x03, 0x00] = 0xEB`, and returns the initial constant `0xDE`
on empty input. -/
theorem c10_crc_values :
    crc [1, 2, 3, 4, 5] = 0xD6 ∧ crc [0xC0, 0x03, 0x00] = 0xEB ∧
    crc [] = CRC_INIT :=
  ⟨by decide, by decide, rfl⟩

end Wake
